import Mathlib

/-!
Verification of the equivalent-circuit model facade of impedance.py.

The development shallowly embeds `src/impedance/circuits.py` and
`src/impedance/model_io.py`.  Numeric payloads (Python floats) are carried
opaquely as rationals: none of the verified properties performs arithmetic
on them, they are only stored, copied and compared.  Python exceptions are
modelled with `Except`; each `assert`, `raise` and implicit runtime error
of the source becomes an explicit `.error` constructor.

The `fitting` module (`circuit_fit`, `computeCircuit`,
`calculateCircuitLength`) is not part of the sources under verification;
the definitions below that stand in for it are modelled from the spec and
say so in their doc comments.
-/

/-- Python exception values, tagged by exception class.  Message texts
follow the source where the source spells one out. -/
inductive PyError where
  | assertionError (msg : String)
  | valueError (msg : String)
  | typeError (msg : String)
  | indexError
deriving DecidableEq

/-- An element of a numpy array as the dynamic checks of
`BaseCircuit.fit`/`BaseCircuit.predict` see it: a real number
(float, int, np.int32, np.float64), a complex number
(complex, np.complex128), or a value of any other type. -/
inductive NpElem where
  | num (v : ℚ)
  | cplx (re im : ℚ)
  | other
deriving DecidableEq

/-- Whether an array element passes
`isinstance(x, (float, int, np.int32, np.float64))`. -/
def NpElem.isNum : NpElem → Bool
  | .num _ => true
  | _ => false

/-- Whether an array element passes
`isinstance(x, (complex, np.complex128))`. -/
def NpElem.isCplx : NpElem → Bool
  | .cplx _ _ => true
  | _ => false

/-- A Python value handed to `fit`/`predict` where an `np.ndarray` is
expected: either an ndarray with its element list, or a value of some
other type (which the `isinstance(..., np.ndarray)` asserts reject). -/
inductive PyInput where
  | ndarray (elems : List NpElem)
  | notArray (desc : String)
deriving DecidableEq

/-- The model state of `circuits.BaseCircuit` (circuits.py lines 13-33).
`circuit` is set by the subclass constructors; models built through the
public constructors always carry it.  `parameters_` and `conf_` start as
`None` and hold the fit result. -/
structure BaseCircuit where
  circuit : String
  initial_guess : Option (List ℚ)
  name : Option String
  algorithm : String
  bounds : Option (List (ℚ × ℚ))
  parameters_ : Option (List ℚ)
  conf_ : Option (List ℚ)
deriving DecidableEq

/-- The element-kind letters of the Element Library with their arities
(spec section 3): R and C have arity 1, E and W have arity 2.  In the
canonical grammar an arity-2 element is written as two slash-joined
`<Kind>_<index>` tokens, so every scalar sub-parameter carries exactly one
kind letter. -/
def elementLetters : List Char := ['R', 'C', 'E', 'W']

/-- Modelled from the spec: `calculateCircuitLength` lives in
`impedance/fitting.py`, which is not among the sources under
verification.  Per spec sections 3 and 4.2 it returns the total parameter
count of a circuit expression, the sum of the arities of all elements.
Because each scalar sub-parameter of the canonical grammar is written as
its own `<Kind>_<index>` token, the sum of arities equals the number of
element-kind letters occurring in the expression, which is how it is
computed here. -/
def calculateCircuitLength (circuit : String) : Nat :=
  (circuit.toList.filter (fun ch => ch ∈ elementLetters)).length

/-- Remove every occurrence of a character: Python string replace with
a single-character pattern and an empty replacement. -/
def removeChar (c : Char) (s : List Char) : List Char :=
  s.filter (fun ch => ch ≠ c)

/-- Replace every occurrence of one character by another: Python
`s.replace(a, b)` for single-character pattern and replacement. -/
def swapChar (a b : Char) (s : List Char) : List Char :=
  s.map (fun ch => if ch = a then b else ch)

/-- Python `str.split(sep)` for a single-character separator: splitting
the empty string yields `[""]`, adjacent separators yield empty
fields. -/
def splitChar (sep : Char) : List Char → List (List Char)
  | [] => [[]]
  | c :: cs =>
    if c = sep then [] :: splitChar sep cs
    else
      match splitChar sep cs with
      | t :: ts => (c :: t) :: ts
      | [] => [[c]]

/-- Embedding of `BaseCircuit.get_param_names` (circuits.py lines 125-132): strip the
parallel-group syntax (`p`, `(`, `)`), turn the remaining separators
(`,`, `/`) into `-`, and split on `-`. -/
def get_param_names (circuit : String) : List String :=
  let names := removeChar 'p' circuit.toList
  let names := removeChar '(' names
  let names := removeChar ')' names
  let names := swapChar ',' '-' names
  let names := swapChar '/' '-' names
  (splitChar '-' names).map List.asString

/-- The record an Evaluator call produces.  The spec (section 4.3) makes
`evaluate` a pure deterministic function of the circuit expression, the
parameter vector and the frequencies; the numeric element formulas
(transcendental impedance functions, section 4.1) are outside a computable
embedding, so the output is modelled initially, as the tuple of inputs the
evaluation is a pure function of.  Every pure evaluator factors through
this record, and the verified claims only concern which inputs reach the
Evaluator and when it raises. -/
structure EvalOutput where
  circuit : String
  parameters : List ℚ
  frequencies : List NpElem
deriving DecidableEq

/-- Modelled from the spec: `computeCircuit`, the Circuit Evaluator entry
point in `impedance/fitting.py`, which is not among the sources under
verification.  Spec sections 4.3 and 8: the evaluator consumes a
parameter vector; invoked with `None` in place of a vector (as
`BaseCircuit.predict` does when the model has neither a fit result nor an
initial guess) it raises, and a parameter vector whose length mismatches
the parameter count of the expression is a configuration error.
Otherwise it returns the output of the pure evaluation of
(circuit, parameters, frequencies). -/
def computeCircuit (circuit : String) (parameters : Option (List ℚ))
    (frequencies : List NpElem) : Except PyError EvalOutput :=
  match parameters with
  | none => .error (.typeError "parameters is None, not a parameter vector")
  | some ps =>
    if ps.length = calculateCircuitLength circuit then
      .ok { circuit := circuit, parameters := ps, frequencies := frequencies }
    else
      .error (.valueError "parameter vector length mismatch")

/-- Embedding of `BaseCircuit._is_fit` (circuits.py lines 82-87): true exactly when
`parameters_` is not `None`. -/
def BaseCircuit._is_fit (m : BaseCircuit) : Bool :=
  if m.parameters_.isSome then true else false

/-- Embedding of `BaseCircuit.predict` (circuits.py lines 89-123): validate the
frequency input, then delegate to the Evaluator with the fitted
parameters when a fit exists and `use_initial` is false, else with the
initial guess.  The fitted branch passes `self.parameters_.tolist()`,
which in that branch is the stored vector. -/
def BaseCircuit.predict (m : BaseCircuit) (frequencies : PyInput)
    (use_initial : Bool) : Except PyError EvalOutput :=
  match frequencies with
  | .notArray _ =>
    .error (.assertionError "frequencies is not of type np.ndarray")
  | .ndarray fs =>
    match fs with
    | [] => .error .indexError
    | f0 :: _ =>
      if f0.isNum = false then
        .error (.assertionError "frequencies does not contain a number")
      else if m._is_fit && !use_initial then
        computeCircuit m.circuit m.parameters_ fs
      else
        computeCircuit m.circuit m.initial_guess fs

/-- The calling convention of `circuit_fit` in `impedance/fitting.py`
(not among the sources under verification), modelled from the spec,
section 4.4: given frequencies, observed impedance, circuit string,
initial guess, algorithm and optional bounds, it either raises (solver
non-convergence, singular Jacobian, ...) or returns a fitted parameter
vector together with a confidence vector that is absent when the solver
covariance is unavailable.  `BaseCircuit.fit` is verified for every
engine of this type. -/
def FitEngine : Type :=
  List NpElem → List NpElem → String → List ℚ → String →
    Option (List (ℚ × ℚ)) → Except PyError (List ℚ × Option (List ℚ))

/-- Embedding of `BaseCircuit.fit` (circuits.py lines 35-80): the sequence of input
asserts, the initial-guess check, the engine call, and the result-field
assignments.  Python mutates `self`; here every raise carries the model
state at the moment it is raised (no assignment precedes any raise in the
source, so every error carries the caller state unchanged), and success
returns the updated model, which the source returns as `self`.
`self.conf_` is assigned only under `if conf is not None:`
(circuits.py lines 74-75). -/
def BaseCircuit.fit (engine : FitEngine) (m : BaseCircuit)
    (frequencies impedance : PyInput) :
    Except (PyError × BaseCircuit) BaseCircuit :=
  match frequencies with
  | .notArray _ =>
    .error (.assertionError "frequencies is not of type np.ndarray", m)
  | .ndarray fs =>
    match fs with
    | [] => .error (.indexError, m)
    | f0 :: _ =>
      if f0.isNum = false then
        .error (.assertionError "frequencies does not contain a number", m)
      else
        match impedance with
        | .notArray _ =>
          .error (.assertionError "impedance is not of type np.ndarray", m)
        | .ndarray zs =>
          match zs with
          | [] => .error (.indexError, m)
          | z0 :: _ =>
            if z0.isCplx = false then
              .error (.assertionError
                "impedance does not contain complex numbers", m)
            else if fs.length ≠ zs.length then
              .error (.assertionError
                "mismatch in length of input frequencies and impedances", m)
            else
              match m.initial_guess with
              | some ig =>
                match engine fs zs m.circuit ig m.algorithm m.bounds with
                | .error e => .error (e, m)
                | .ok (parameters, conf) =>
                  .ok { m with
                        parameters_ := some parameters,
                        conf_ := match conf with
                          | some c => some c
                          | none => m.conf_ }
              | none => .error (.valueError "no initial guess supplied", m)

/-- Embedding of `CustomCircuit.__init__` (circuits.py lines 286-316) composed with
`BaseCircuit.__init__` (lines 13-33).  The base constructor checks each
entry of a supplied initial guess is a number, vacuous under the rational
carrier; the fit-result fields start as `None`.  `CustomCircuit` then
stores the circuit string and asserts the initial guess length equals
`calculateCircuitLength(self.circuit)` - Python `len(None)` raises
`TypeError` when no initial guess was supplied. -/
def CustomCircuit.init (circuit : String) (initial_guess : Option (List ℚ))
    (name : Option String) (algorithm : String)
    (bounds : Option (List (ℚ × ℚ))) : Except PyError BaseCircuit :=
  let m : BaseCircuit :=
    { circuit := circuit, initial_guess := initial_guess, name := name,
      algorithm := algorithm, bounds := bounds,
      parameters_ := none, conf_ := none }
  match initial_guess with
  | none => .error (.typeError "object of type NoneType has no len")
  | some ig =>
    if ig.length = calculateCircuitLength circuit then .ok m
    else
      .error (.assertionError
        "Initial guess length needs to be equal to circuit length")

/-- The circuit string `Randles.__init__` installs (circuits.py lines
274 and 280), by CPE flag. -/
def randlesCircuit (CPE : Bool) : String :=
  if CPE then "R_0-p(R_1,E_1/E_2)-W_1/W_2" else "R_0-p(R_1,C_1)-W_1/W_2"

/-- Embedding of `Randles.__init__` (circuits.py lines 260-283) composed with
`BaseCircuit.__init__`: fixes the name and the circuit string by the CPE
flag, then asserts the initial guess length equals
`calculateCircuitLength` of that circuit. -/
def Randles.init (CPE : Bool) (initial_guess : Option (List ℚ))
    (algorithm : String) (bounds : Option (List (ℚ × ℚ))) :
    Except PyError BaseCircuit :=
  let nm := if CPE then "Randles w/ CPE" else "Randles"
  let m : BaseCircuit :=
    { circuit := randlesCircuit CPE, initial_guess := initial_guess,
      name := some nm, algorithm := algorithm, bounds := bounds,
      parameters_ := none, conf_ := none }
  match initial_guess with
  | none => .error (.typeError "object of type NoneType has no len")
  | some ig =>
    if ig.length = calculateCircuitLength (randlesCircuit CPE) then .ok m
    else
      .error (.assertionError
        "Initial guess length needs to be equal to parameter length")

/-- The JSON record `model_export` writes (model_io.py lines 35-40):
keys Name, Circuit String, Initial Guess, Parameters, Confidence. -/
structure ExportedJson where
  jsonName : String
  circuitString : String
  initialGuessPairs : List (String × ℚ)
  parameterPairs : List (String × ℚ)
  confidencePairs : List (String × ℚ)
deriving DecidableEq

/-- The list comprehension
`[(name, values[index]) for index, name in enumerate(names)]` of
model_io.py lines 25-30, with Python evaluation order: indexing `None`
raises `TypeError`, an out-of-range index raises `IndexError`, and the
first failing index raises. -/
def pairIndexed (names : List String) (values : Option (List ℚ))
    (start : Nat) : Except PyError (List (String × ℚ)) :=
  match names with
  | [] => .ok []
  | n :: rest =>
    match values with
    | none => .error (.typeError "NoneType object is not subscriptable")
    | some vs =>
      if h : start < vs.length then
        match pairIndexed rest values (start + 1) with
        | .error e => .error e
        | .ok tail => .ok ((n, vs.get ⟨start, h⟩) :: tail)
      else .error .indexError

/-- Embedding of `model_export` (model_io.py lines 6-47).  The three name/value pair
lists are built (lines 25-30) before the `None` name sentinel is applied
(lines 32-33) and before the destination file is opened and written
(lines 45-47); the returned record stands for the file content, so an
error means no file was created. -/
def model_export (model : BaseCircuit) : Except PyError ExportedJson :=
  let model_string := model.circuit
  let model_param_names := get_param_names model_string
  match pairIndexed model_param_names model.initial_guess 0 with
  | .error e => .error e
  | .ok model_initial_guess =>
    match pairIndexed model_param_names model.parameters_ 0 with
    | .error e => .error e
    | .ok model_params =>
      match pairIndexed model_param_names model.conf_ 0 with
      | .error e => .error e
      | .ok model_conf =>
        let model_name :=
          match model.name with
          | none => "None"
          | some s => if s = "" then "None" else s
        .ok { jsonName := model_name, circuitString := model_string,
              initialGuessPairs := model_initial_guess,
              parameterPairs := model_params,
              confidencePairs := model_conf }

/-- Embedding of `model_import` (model_io.py lines 50-103).  Note model_io.py line 79:
`circuit_conf_list = json_data["Initial Guess"]` - the confidence list is
read from the Initial Guess key, not from the Confidence key the export
wrote; the embedding reproduces this faithfully.  The constructed
`CustomCircuit` uses the default algorithm and bounds. -/
def model_import (json_data : ExportedJson) (as_initial_guess : Bool) :
    Except PyError BaseCircuit :=
  let circuit_name :=
    if json_data.jsonName = "None" then none else some json_data.jsonName
  let circuit_string := json_data.circuitString
  let circuit_param_list := json_data.parameterPairs
  let circuit_ig_list := json_data.initialGuessPairs
  let circuit_conf_list := json_data.initialGuessPairs
  let circuit_params := circuit_param_list.map Prod.snd
  let circuit_initial_guess := circuit_ig_list.map Prod.snd
  let circuit_conf := circuit_conf_list.map Prod.snd
  if as_initial_guess then
    CustomCircuit.init circuit_string (some circuit_params) circuit_name
      "leastsq" none
  else
    match CustomCircuit.init circuit_string (some circuit_initial_guess)
        circuit_name "leastsq" none with
    | .error e => .error e
    | .ok m =>
      .ok { m with parameters_ := some circuit_params,
                   conf_ := some circuit_conf }

/-! ## The circuit expression grammar (spec sections 3 and 4.2)

A valid circuit expression is the rendering of a structural tree: series
composition joined by `-`, parallel groups `p(...)` with at least two
comma-separated branches, elements named `<Kind>_<index>` with arity-2
elements written as two slash-joined sub-parameter tokens sharing the
kind letter.  The trees below realize exactly that grammar, so
quantifying over trees quantifies over the valid expressions. -/

/-- The decimal digit characters an element index is spelled with. -/
def digitChars : List Char :=
  ['0', '1', '2', '3', '4', '5', '6', '7', '8', '9']

/-- An element index is a nonempty string of decimal digits. -/
def goodIndex (s : String) : Bool :=
  !s.toList.isEmpty && s.toList.all (fun ch => decide (ch ∈ digitChars))

/-- An element occurrence in a circuit expression: resistor and
capacitor carry one index token; constant-phase and Warburg elements
carry two slash-joined sub-parameter tokens (spec section 3). -/
inductive Elem where
  | R (idx : String)
  | C (idx : String)
  | E (idx1 idx2 : String)
  | W (idx1 idx2 : String)

/-- All index strings of the element are well formed. -/
def Elem.valid : Elem → Bool
  | .R i => goodIndex i
  | .C i => goodIndex i
  | .E i j => goodIndex i && goodIndex j
  | .W i j => goodIndex i && goodIndex j

/-- Parameter arity per element kind (spec section 3): 1 for R and C,
2 for E and W. -/
def Elem.arity : Elem → Nat
  | .R _ => 1
  | .C _ => 1
  | .E _ _ => 2
  | .W _ _ => 2

/-- The `<Kind>_<index>` name tokens of the element, one per scalar
sub-parameter, in sub-parameter order. -/
def Elem.tokens : Elem → List (List Char)
  | .R i => ['R' :: '_' :: i.toList]
  | .C i => ['C' :: '_' :: i.toList]
  | .E i j => ['E' :: '_' :: i.toList, 'E' :: '_' :: j.toList]
  | .W i j => ['W' :: '_' :: i.toList, 'W' :: '_' :: j.toList]

/-- Join character lists with a single separator character. -/
def joinWith (sep : Char) : List (List Char) → List Char
  | [] => []
  | [t] => t
  | t :: u :: ts => t ++ sep :: joinWith sep (u :: ts)

/-- Concrete spelling of an element: its tokens joined by `/`. -/
def Elem.chars (e : Elem) : List Char := joinWith '/' e.tokens

mutual
/-- A parsed circuit structure (spec section 3): an element leaf, a
series composition, or a parallel group of at least two branches. -/
inductive CircuitTree where
  | elem : Elem → CircuitTree
  | ser : CircuitTree → CircuitTree → CircuitTree
  | par : CircuitTree → BranchTail → CircuitTree
/-- The second and further branches of a parallel group, so that a
parallel group always holds at least two branches. -/
inductive BranchTail where
  | one : CircuitTree → BranchTail
  | cons : CircuitTree → BranchTail → BranchTail
end

mutual
/-- Concrete spelling of a tree: series children joined by `-`, a
parallel group spelled `p(` branches `)` with `,` between branches. -/
def CircuitTree.chars : CircuitTree → List Char
  | .elem e => e.chars
  | .ser a b => a.chars ++ '-' :: b.chars
  | .par a bs => 'p' :: '(' :: (a.chars ++ ',' :: BranchTail.chars bs ++ [')'])
/-- Spelling of the remaining branches of a parallel group. -/
def BranchTail.chars : BranchTail → List Char
  | .one b => b.chars
  | .cons b bs => b.chars ++ ',' :: BranchTail.chars bs
end

mutual
/-- The element name tokens of a tree in left-to-right depth-first
order, one per scalar sub-parameter: the order in which the Evaluator
consumes the parameter vector (spec section 4.2). -/
def CircuitTree.tokens : CircuitTree → List (List Char)
  | .elem e => e.tokens
  | .ser a b => a.tokens ++ b.tokens
  | .par a bs => a.tokens ++ BranchTail.tokens bs
/-- Tokens of the remaining branches of a parallel group. -/
def BranchTail.tokens : BranchTail → List (List Char)
  | .one b => b.tokens
  | .cons b bs => b.tokens ++ BranchTail.tokens bs
end

mutual
/-- Every element of the tree has well-formed index strings. -/
def CircuitTree.valid : CircuitTree → Bool
  | .elem e => e.valid
  | .ser a b => a.valid && b.valid
  | .par a bs => a.valid && BranchTail.valid bs
/-- Validity of the remaining branches of a parallel group. -/
def BranchTail.valid : BranchTail → Bool
  | .one b => b.valid
  | .cons b bs => b.valid && BranchTail.valid bs
end

mutual
/-- The total parameter count of a tree: the sum of the arities of all
its elements (spec section 3). -/
def CircuitTree.paramCount : CircuitTree → Nat
  | .elem e => e.arity
  | .ser a b => a.paramCount + b.paramCount
  | .par a bs => a.paramCount + BranchTail.paramCount bs
/-- Parameter count of the remaining branches of a parallel group. -/
def BranchTail.paramCount : BranchTail → Nat
  | .one b => b.paramCount
  | .cons b bs => b.paramCount + BranchTail.paramCount bs
end

/-- The circuit expression string a tree renders to. -/
def renderString (t : CircuitTree) : String := List.asString t.chars

/-- The cleanup pass of `get_param_names` before splitting: drop the
parallel-group syntax and unify the remaining separators to `-`,
in the order of the replace calls of circuits.py lines 129-130. -/
def cleanChars (cs : List Char) : List Char :=
  swapChar '/' '-'
    (swapChar ',' '-' (removeChar ')' (removeChar '(' (removeChar 'p' cs))))

/-- The characters a well-formed name token consists of: an
element-kind letter, the underscore, decimal digits. -/
def tokenChars : List Char := elementLetters ++ '_' :: digitChars

/-! ## Concrete instances used by the claim theorems -/

/-- A fitted one-resistor model whose confidence vector differs from its
initial guess, exhibiting the confidence round-trip defect of
`model_import`. -/
def mC1 : BaseCircuit :=
  { circuit := "R_0", initial_guess := some [10], name := none,
    algorithm := "leastsq", bounds := none,
    parameters_ := some [1], conf_ := some [3] }

/-- The JSON record `model_export` produces for `mC1`. -/
def jC1 : ExportedJson :=
  { jsonName := "None", circuitString := "R_0",
    initialGuessPairs := [("R_0", 10)], parameterPairs := [("R_0", 1)],
    confidencePairs := [("R_0", 3)] }

/-- The model `model_import` rebuilds from `jC1`: every field of `mC1`
is reproduced except `conf_`, which receives the exported initial guess
values. -/
def mC1round : BaseCircuit :=
  { circuit := "R_0", initial_guess := some [10], name := none,
    algorithm := "leastsq", bounds := none,
    parameters_ := some [1], conf_ := some [10] }

/-- A fitting engine that converges but cannot estimate covariance, so
its confidence output is absent (spec section 4.4). -/
def engC3 : FitEngine := fun _ _ _ _ _ _ => .ok ([5], none)

/-- A previously fitted one-resistor model about to be re-fitted. -/
def mC3 : BaseCircuit :=
  { circuit := "R_0", initial_guess := some [2], name := none,
    algorithm := "leastsq", bounds := none,
    parameters_ := some [9], conf_ := some [1] }

/-- The model state after re-fitting `mC3` through `engC3`: the
parameter vector is overwritten, the confidence vector is not. -/
def mC3fit : BaseCircuit :=
  { circuit := "R_0", initial_guess := some [2], name := none,
    algorithm := "leastsq", bounds := none,
    parameters_ := some [5], conf_ := some [1] }

/-- A well-typed frequency array input. -/
def freqsOk : PyInput := PyInput.ndarray [NpElem.num 100, NpElem.num 1]

/-- A well-typed impedance array input of the same length. -/
def impedOk : PyInput := PyInput.ndarray [NpElem.cplx 3 4, NpElem.cplx 5 6]

/-- The valid tree rendering to `R_0-p(R_1,C_1)-W_1/W_2`, the Randles
circuit of the claim example. -/
def tC7 : CircuitTree :=
  CircuitTree.ser (CircuitTree.elem (Elem.R "0"))
    (CircuitTree.ser
      (CircuitTree.par (CircuitTree.elem (Elem.R "1"))
        (BranchTail.one (CircuitTree.elem (Elem.C "1"))))
      (CircuitTree.elem (Elem.W "1" "2")))

/-! ## Helper lemmas -/

/-- Python `split` never returns an empty list of fields. -/
theorem splitChar_ne_nil (sep : Char) (cs : List Char) :
    splitChar sep cs ≠ [] := by
  induction cs with
  | nil => simp [splitChar]
  | cons c cs ih =>
    simp only [splitChar]
    by_cases h : c = sep
    · simp [h]
    · simp only [h, if_false]
      cases hr : splitChar sep cs with
      | nil => exact absurd hr ih
      | cons t ts => simp

/-- The function `get_param_names` always returns at least one token. -/
theorem get_param_names_ne_nil (s : String) : get_param_names s ≠ [] := by
  simp only [get_param_names, ne_eq, List.map_eq_nil_iff]
  exact splitChar_ne_nil _ _

/-- C2: a model with no fit result and no initial guess cannot predict:
`predict` with `use_initial=False` raises. -/
theorem C2_predict_neither_usable_raises :
    ∀ (m : BaseCircuit) (f : PyInput),
      m.parameters_ = none → m.initial_guess = none →
      ∃ e, m.predict f false = .error e := by
  intro m f hp hig
  cases f with
  | notArray d => exact ⟨_, rfl⟩
  | ndarray fs =>
    cases fs with
    | nil => exact ⟨_, rfl⟩
    | cons f0 rest =>
      cases hnum : f0.isNum with
      | false =>
        exact ⟨PyError.assertionError "frequencies does not contain a number",
          by simp [BaseCircuit.predict, hnum]⟩
      | true =>
        refine ⟨PyError.typeError "parameters is None, not a parameter vector", ?_⟩
        simp [BaseCircuit.predict, hnum, BaseCircuit._is_fit, hp, hig,
          computeCircuit]

/-- C2 witness: the concrete unfitted, guess-free model. -/
theorem C2_witness :
    (({ circuit := "R_0", initial_guess := none, name := none,
        algorithm := "leastsq", bounds := none, parameters_ := none,
        conf_ := none } : BaseCircuit).parameters_ = none) ∧
    ∃ e, BaseCircuit.predict
        { circuit := "R_0", initial_guess := none, name := none,
          algorithm := "leastsq", bounds := none, parameters_ := none,
          conf_ := none } freqsOk false = .error e :=
  ⟨rfl, C2_predict_neither_usable_raises _ freqsOk rfl rfl⟩

/-- C4: after input validation, `predict` delegates to the Evaluator
with the fitted parameters exactly when a fit result exists and
`use_initial` is false, and with the stored initial guess otherwise. -/
theorem C4_predict_delegates :
    ∀ (m : BaseCircuit) (v : ℚ) (rest : List NpElem) (u : Bool),
      (m.parameters_.isSome = true ∧ u = false →
        m.predict (.ndarray (.num v :: rest)) u =
          computeCircuit m.circuit m.parameters_ (.num v :: rest)) ∧
      (m.parameters_ = none ∨ u = true →
        m.predict (.ndarray (.num v :: rest)) u =
          computeCircuit m.circuit m.initial_guess (.num v :: rest)) := by
  intro m v rest u
  constructor
  · rintro ⟨hs, hu⟩
    subst hu
    simp [BaseCircuit.predict, BaseCircuit._is_fit, NpElem.isNum, hs]
  · rintro (hp | hu)
    · simp [BaseCircuit.predict, BaseCircuit._is_fit, NpElem.isNum, hp]
    · subst hu
      simp [BaseCircuit.predict, BaseCircuit._is_fit, NpElem.isNum]

/-- C4 witness: the fitted model `mC1` delegates with its fitted
parameter vector. -/
theorem C4_witness :
    mC1.parameters_.isSome = true ∧
    mC1.predict (.ndarray [.num 7]) false =
      computeCircuit mC1.circuit mC1.parameters_ [.num 7] :=
  ⟨rfl, (C4_predict_delegates mC1 7 [] false).1 ⟨rfl, rfl⟩⟩

/-- C1: evaluation of the export/import round-trip at a fitted model
whose confidence vector differs from its initial guess.  The circuit
string, name, initial guess and fitted parameters are reproduced, but
the imported confidence vector equals the exported initial guess, not
the exported confidence: model_io.py line 79 reads the confidence list
from the Initial Guess JSON key. -/
theorem C1_roundtrip_conf_bug :
    model_export mC1 = .ok jC1 ∧
    model_import jC1 false = .ok mC1round ∧
    mC1round.circuit = mC1.circuit ∧
    mC1round.name = mC1.name ∧
    mC1round.initial_guess = mC1.initial_guess ∧
    mC1round.parameters_ = mC1.parameters_ ∧
    jC1.confidencePairs = [("R_0", 3)] ∧
    mC1.conf_ = some [3] ∧
    mC1round.conf_ = some [10] ∧
    mC1round.conf_ ≠ mC1.conf_ :=
  ⟨rfl, rfl, rfl, rfl, rfl, rfl, rfl, rfl, rfl, by decide⟩

/-- C6: the constructors of `CustomCircuit` and `Randles` enforce that
the initial guess length equals `calculateCircuitLength` of the circuit
string: a mismatched guess makes construction raise, and a construction
that succeeds establishes the equality (and starts with no fit
result). -/
theorem C6_construction_checks_length :
    ∀ (circuit : String) (ig : List ℚ) (name : Option String)
      (algorithm : String) (bounds : Option (List (ℚ × ℚ))) (CPE : Bool),
      (ig.length ≠ calculateCircuitLength circuit →
        ∃ e, CustomCircuit.init circuit (some ig) name algorithm bounds =
          .error e) ∧
      (∀ m1, CustomCircuit.init circuit (some ig) name algorithm bounds =
          .ok m1 →
        ig.length = calculateCircuitLength circuit ∧
        m1.parameters_ = none ∧ m1.conf_ = none) ∧
      (ig.length ≠ calculateCircuitLength (randlesCircuit CPE) →
        ∃ e, Randles.init CPE (some ig) algorithm bounds = .error e) ∧
      (∀ m1, Randles.init CPE (some ig) algorithm bounds = .ok m1 →
        ig.length = calculateCircuitLength (randlesCircuit CPE)) := by
  intro circuit ig name algorithm bounds CPE
  refine ⟨?_, ?_, ?_, ?_⟩
  · intro hne
    exact ⟨PyError.assertionError
      "Initial guess length needs to be equal to circuit length",
      by simp [CustomCircuit.init, hne]⟩
  · intro m1 h
    simp only [CustomCircuit.init] at h
    split at h
    · rename_i hl
      cases h
      exact ⟨hl, rfl, rfl⟩
    · exact absurd h (by simp)
  · intro hne
    exact ⟨PyError.assertionError
      "Initial guess length needs to be equal to parameter length",
      by simp [Randles.init, hne]⟩
  · intro m1 h
    simp only [Randles.init] at h
    split at h
    · rename_i hl
      exact hl
    · exact absurd h (by simp)

/-- C6 witness: a two-entry guess for the one-parameter circuit `R_0`
is rejected; the five-entry guess for the Randles circuit is the
enforced length. -/
theorem C6_witness :
    ([ (1 : ℚ), 2 ].length ≠ calculateCircuitLength "R_0") ∧
    (∃ e, CustomCircuit.init "R_0" (some [1, 2]) none "leastsq" none =
      .error e) ∧
    ∀ m1, Randles.init false (some [1, 2, 3, 4, 5]) "leastsq" none =
        .ok m1 →
      [(1 : ℚ), 2, 3, 4, 5].length =
        calculateCircuitLength (randlesCircuit false) :=
  ⟨by decide,
   (C6_construction_checks_length "R_0" [1, 2] none "leastsq" none
      false).1 (by decide),
   (C6_construction_checks_length "R_0" [1, 2, 3, 4, 5] none "leastsq"
      none false).2.2.2⟩

/-- C9: exporting a model without a complete fit result raises while
building the parameter or confidence pair list, before the destination
file is opened, so no file is created. -/
theorem C9_export_unfitted_raises :
    ∀ m : BaseCircuit, m.parameters_ = none ∨ m.conf_ = none →
      ∃ e, model_export m = .error e := by
  intro m h
  rcases hn : get_param_names m.circuit with _ | ⟨n, rest⟩
  · exact absurd hn (get_param_names_ne_nil m.circuit)
  · simp only [model_export, hn]
    rcases hig : pairIndexed (n :: rest) m.initial_guess 0 with e | igl
    · exact ⟨e, by simp⟩
    · rcases h with hp | hc
      · rw [hp]
        exact ⟨PyError.typeError "NoneType object is not subscriptable",
          by simp [pairIndexed]⟩
      · rcases hps : pairIndexed (n :: rest) m.parameters_ 0 with e | psl
        · exact ⟨e, by simp⟩
        · rw [hc]
          exact ⟨PyError.typeError "NoneType object is not subscriptable",
            by simp [pairIndexed]⟩

/-- C9 witness: exporting the never-fitted model built by the
`CustomCircuit` constructor raises. -/
theorem C9_witness :
    (({ circuit := "R_0", initial_guess := some [10], name := none,
        algorithm := "leastsq", bounds := none, parameters_ := none,
        conf_ := none } : BaseCircuit).parameters_ = none) ∧
    ∃ e, model_export
        { circuit := "R_0", initial_guess := some [10], name := none,
          algorithm := "leastsq", bounds := none, parameters_ := none,
          conf_ := none } = .error e :=
  ⟨rfl, C9_export_unfitted_raises _ (Or.inl rfl)⟩

/-- Values extracted by the pairing comprehension: the slice of the
value vector the names were paired with. -/
theorem pairIndexed_map_snd :
    ∀ (names : List String) (vs : List ℚ) (start : Nat)
      (l : List (String × ℚ)),
      pairIndexed names (some vs) start = .ok l →
      l.map Prod.snd = (vs.drop start).take names.length := by
  intro names
  induction names with
  | nil =>
    intro vs start l h
    simp only [pairIndexed] at h
    cases h
    simp
  | cons n rest ih =>
    intro vs start l h
    simp only [pairIndexed] at h
    split at h
    · rename_i hlt
      rcases htail : pairIndexed rest (some vs) (start + 1) with e | tail
      · rw [htail] at h
        exact absurd h (by simp)
      · rw [htail] at h
        cases h
        have hdrop : vs.drop start = vs[start] :: vs.drop (start + 1) :=
          List.drop_eq_getElem_cons hlt
        have ihh := ih vs (start + 1) tail htail
        simp only [List.map_cons, ihh, hdrop, List.length_cons,
          List.take_succ_cons]
        simp [List.get_eq_getElem]
    · exact absurd h (by simp)

/-- Inversion of a successful export: the parameter pair list is the
one built from `parameters_` over the parameter names. -/
theorem model_export_ok_paramPairs :
    ∀ (m : BaseCircuit) (j : ExportedJson), model_export m = .ok j →
      pairIndexed (get_param_names m.circuit) m.parameters_ 0 =
        .ok j.parameterPairs := by
  intro m j h
  simp only [model_export] at h
  rcases hig : pairIndexed (get_param_names m.circuit) m.initial_guess 0
      with e | igl
  · rw [hig] at h
    exact absurd h (by simp)
  · rw [hig] at h
    rcases hps : pairIndexed (get_param_names m.circuit) m.parameters_ 0
        with e | psl
    · rw [hps] at h
      exact absurd h (by simp)
    · rw [hps] at h
      rcases hcf : pairIndexed (get_param_names m.circuit) m.conf_ 0
          with e | cfl
      · rw [hcf] at h
        exact absurd h (by simp)
      · rw [hcf] at h
        cases h
        rfl

/-- C10: importing an export of a fitted model with
`as_initial_guess=True` yields an unfitted model whose initial guess is
the exported fitted parameter vector and whose fit-result fields are
both `None`. -/
theorem C10_import_as_initial_guess_unfitted :
    ∀ (m : BaseCircuit) (ps : List ℚ) (j : ExportedJson)
      (m1 : BaseCircuit),
      m.parameters_ = some ps →
      ps.length = (get_param_names m.circuit).length →
      model_export m = .ok j →
      model_import j true = .ok m1 →
      m1.initial_guess = some ps ∧ m1.parameters_ = none ∧
        m1.conf_ = none := by
  intro m ps j m1 hp hlen hexp himp
  have hpairs := model_export_ok_paramPairs m j hexp
  rw [hp] at hpairs
  have hsnd : j.parameterPairs.map Prod.snd = ps := by
    have := pairIndexed_map_snd (get_param_names m.circuit) ps 0
      j.parameterPairs hpairs
    simpa [← hlen] using this
  simp only [model_import, if_true] at himp
  rw [hsnd] at himp
  simp only [CustomCircuit.init] at himp
  split at himp
  · cases himp
    exact ⟨rfl, rfl, rfl⟩
  · exact absurd himp (by simp)

/-- C10 witness: the concrete fitted model `mC1` exports to `jC1`,
whose parameter-seeded import is unfitted with the fitted values as
guess. -/
theorem C10_witness :
    mC1.parameters_ = some [1] ∧
    model_export mC1 = .ok jC1 ∧
    ∀ m1, model_import jC1 true = .ok m1 →
      m1.initial_guess = some [1] ∧ m1.parameters_ = none ∧
        m1.conf_ = none :=
  ⟨rfl, rfl, fun m1 himp =>
    C10_import_as_initial_guess_unfitted mC1 [1] jC1 m1 rfl (by decide)
      rfl himp⟩

/-- Case analysis of `BaseCircuit.fit`: either some input validation
check fails, and the result is the same engine-independent error
carrying the unchanged model, or every check passes and the outcome is
determined by the engine result, with `conf_` overwritten only when the
engine returns a confidence vector. -/
theorem fit_cases (engine : FitEngine) (m : BaseCircuit) (f z : PyInput) :
    (∃ e, ∀ eng2 : FitEngine,
      BaseCircuit.fit eng2 m f z = .error (e, m)) ∨
    (∃ fs zs f0 fs2 z0 zs2 ig,
      f = PyInput.ndarray fs ∧ z = PyInput.ndarray zs ∧
      fs = f0 :: fs2 ∧ zs = z0 :: zs2 ∧
      f0.isNum = true ∧ z0.isCplx = true ∧
      fs.length = zs.length ∧ m.initial_guess = some ig ∧
      ((∃ e, engine fs zs m.circuit ig m.algorithm m.bounds = .error e ∧
          BaseCircuit.fit engine m f z = .error (e, m)) ∨
       (∃ p, engine fs zs m.circuit ig m.algorithm m.bounds =
            .ok (p, none) ∧
          BaseCircuit.fit engine m f z =
            .ok { m with parameters_ := some p, conf_ := m.conf_ }) ∨
       (∃ p c, engine fs zs m.circuit ig m.algorithm m.bounds =
            .ok (p, some c) ∧
          BaseCircuit.fit engine m f z =
            .ok { m with parameters_ := some p, conf_ := some c }))) := by
  cases f with
  | notArray d =>
    exact .inl ⟨PyError.assertionError
      "frequencies is not of type np.ndarray", fun eng2 => rfl⟩
  | ndarray fs =>
    cases fs with
    | nil => exact .inl ⟨PyError.indexError, fun eng2 => rfl⟩
    | cons f0 fs2 =>
      cases hnum : f0.isNum with
      | false =>
        exact .inl ⟨PyError.assertionError
          "frequencies does not contain a number",
          fun eng2 => by simp [BaseCircuit.fit, hnum]⟩
      | true =>
        cases z with
        | notArray d =>
          exact .inl ⟨PyError.assertionError
            "impedance is not of type np.ndarray",
            fun eng2 => by simp [BaseCircuit.fit, hnum]⟩
        | ndarray zs =>
          cases zs with
          | nil =>
            exact .inl ⟨PyError.indexError,
              fun eng2 => by simp [BaseCircuit.fit, hnum]⟩
          | cons z0 zs2 =>
            cases hcplx : z0.isCplx with
            | false =>
              exact .inl ⟨PyError.assertionError
                "impedance does not contain complex numbers",
                fun eng2 => by simp [BaseCircuit.fit, hnum, hcplx]⟩
            | true =>
              by_cases hlen :
                  (f0 :: fs2).length = (z0 :: zs2).length
              case neg =>
                have hlen2 : ¬fs2.length = zs2.length := by
                  simpa using hlen
                exact .inl ⟨PyError.assertionError
                  "mismatch in length of input frequencies and impedances",
                  fun eng2 => by
                    simp [BaseCircuit.fit, hnum, hcplx, hlen2]⟩
              case pos =>
                have hlen2 : fs2.length = zs2.length := by simpa using hlen
                cases hig : m.initial_guess with
                | none =>
                  exact .inl ⟨PyError.valueError "no initial guess supplied",
                    fun eng2 => by
                      simp [BaseCircuit.fit, hnum, hcplx, hlen2, hig]⟩
                | some ig =>
                  refine .inr ⟨f0 :: fs2, z0 :: zs2, f0, fs2, z0, zs2, ig,
                    rfl, rfl, rfl, rfl, hnum, hcplx, hlen, rfl, ?_⟩
                  rcases heng : engine (f0 :: fs2) (z0 :: zs2) m.circuit ig
                      m.algorithm m.bounds with e | ⟨p, conf⟩
                  · exact .inl ⟨e, rfl, by
                      simp [BaseCircuit.fit, hnum, hcplx, hlen2, hig, heng]⟩
                  · cases conf with
                    | none =>
                      exact .inr (.inl ⟨p, rfl, by
                        simp [BaseCircuit.fit, hnum, hcplx, hlen2, hig, heng]⟩)
                    | some c =>
                      exact .inr (.inr ⟨p, c, rfl, by
                        simp [BaseCircuit.fit, hnum, hcplx, hlen2, hig, heng]⟩)

/-- C3 counterexample: a successful re-fit through an engine whose
confidence output is absent overwrites `parameters_` but leaves `conf_`
at the value of the previous fit - a partial update of the Fit Result, so a
successful fit does not always overwrite both vectors together. -/
theorem C3_counterexample :
    BaseCircuit.fit engC3 mC3 freqsOk impedOk = .ok mC3fit ∧
    mC3fit.parameters_ ≠ mC3.parameters_ ∧
    mC3fit.conf_ = mC3.conf_ :=
  ⟨rfl, by decide, rfl⟩

/-- C3 amended: a failed fit call leaves the model
(and so `parameters_` and `conf_`) exactly as before; a successful fit
call always overwrites `parameters_`, and overwrites `conf_` exactly
when the engine returns a confidence vector, leaving `conf_` at its
prior value when the engine reports no confidence estimate. -/
theorem C3_fit_update_discipline :
    ∀ (engine : FitEngine) (m : BaseCircuit) (f z : PyInput),
      (∀ e m1, BaseCircuit.fit engine m f z = .error (e, m1) → m1 = m) ∧
      (∀ m1, BaseCircuit.fit engine m f z = .ok m1 →
        ∃ fs zs ig p conf,
          f = PyInput.ndarray fs ∧ z = PyInput.ndarray zs ∧
          m.initial_guess = some ig ∧
          engine fs zs m.circuit ig m.algorithm m.bounds = .ok (p, conf) ∧
          m1.parameters_ = some p ∧
          ((conf = none ∧ m1.conf_ = m.conf_) ∨
           (∃ c, conf = some c ∧ m1.conf_ = some c))) := by
  intro engine m f z
  constructor
  · intro e m1 h
    rcases fit_cases engine m f z with ⟨e2, he⟩ | hvalid
    · rw [he engine] at h
      simp only [Except.error.injEq, Prod.mk.injEq] at h
      exact h.2.symm
    · obtain ⟨fs, zs, f0, fs2, z0, zs2, ig, hf, hz, hfs, hzs, hnum,
        hcplx, hlen, hig, hres⟩ := hvalid
      rcases hres with ⟨e3, _, hfit⟩ | ⟨p, _, hfit⟩ | ⟨p, c, _, hfit⟩
      · rw [hfit] at h
        simp only [Except.error.injEq, Prod.mk.injEq] at h
        exact h.2.symm
      · rw [hfit] at h
        exact absurd h (by simp)
      · rw [hfit] at h
        exact absurd h (by simp)
  · intro m1 h
    rcases fit_cases engine m f z with ⟨e2, he⟩ | hvalid
    · rw [he engine] at h
      exact absurd h (by simp)
    · obtain ⟨fs, zs, f0, fs2, z0, zs2, ig, hf, hz, hfs, hzs, hnum,
        hcplx, hlen, hig, hres⟩ := hvalid
      rcases hres with ⟨e3, _, hfit⟩ | ⟨p, heng, hfit⟩ | ⟨p, c, heng, hfit⟩
      · rw [hfit] at h
        exact absurd h (by simp)
      · rw [hfit] at h
        cases h
        exact ⟨fs, zs, ig, p, none, hf, hz, hig, heng, rfl,
          Or.inl ⟨rfl, rfl⟩⟩
      · rw [hfit] at h
        cases h
        exact ⟨fs, zs, ig, p, some c, hf, hz, hig, heng, rfl,
          Or.inr ⟨c, rfl, rfl⟩⟩

/-- C3 witness: the amended theorem applied to a concrete successful
fit whose engine returns a confidence vector. -/
theorem C3_witness :
    ∃ fs zs ig p conf,
      freqsOk = PyInput.ndarray fs ∧ impedOk = PyInput.ndarray zs ∧
      mC3.initial_guess = some ig ∧
      ((fun _ _ _ _ _ _ => Except.ok ([5], some [7])) : FitEngine) fs zs
        mC3.circuit ig mC3.algorithm mC3.bounds = .ok (p, conf) ∧
      ({ mC3 with parameters_ := some [5],
                  conf_ := some [7] } : BaseCircuit).parameters_ = some p ∧
      ((conf = none ∧
        ({ mC3 with parameters_ := some [5],
                    conf_ := some [7] } : BaseCircuit).conf_ = mC3.conf_) ∨
       (∃ c, conf = some c ∧
        ({ mC3 with parameters_ := some [5],
                    conf_ := some [7] } : BaseCircuit).conf_ = some c)) :=
  (C3_fit_update_discipline
    ((fun _ _ _ _ _ _ => Except.ok ([5], some [7])) : FitEngine)
    mC3 freqsOk impedOk).2
    { mC3 with parameters_ := some [5], conf_ := some [7] } rfl

/-- C5: every enumerated bad input to `fit` - a non-ndarray argument,
an empty array, a wrongly-typed first element, mismatched lengths, or a
missing initial guess - produces an error that is the same for every
fitting engine and carries the unchanged model: the validation rejects
the call before any engine work. -/
theorem C5_fit_validates_before_engine :
    ∀ (m : BaseCircuit) (f z : PyInput),
      ((∃ d, f = PyInput.notArray d) ∨ (∃ d, z = PyInput.notArray d) ∨
       f = PyInput.ndarray [] ∨ z = PyInput.ndarray [] ∨
       (∃ e es, f = PyInput.ndarray (e :: es) ∧ e.isNum = false) ∨
       (∃ e es, z = PyInput.ndarray (e :: es) ∧ e.isCplx = false) ∨
       (∃ fs zs, f = PyInput.ndarray fs ∧ z = PyInput.ndarray zs ∧
         fs.length ≠ zs.length) ∨
       m.initial_guess = none) →
      ∃ e, ∀ engine : FitEngine,
        BaseCircuit.fit engine m f z = .error (e, m) := by
  intro m f z h
  rcases fit_cases (fun _ _ _ _ _ _ => .ok ([], none)) m f z with
    ⟨e, he⟩ | hvalid
  · exact ⟨e, he⟩
  · exfalso
    obtain ⟨fs, zs, f0, fs2, z0, zs2, ig, hf, hz, hfs, hzs, hnum,
      hcplx, hlen, hig, _⟩ := hvalid
    subst hfs hzs hf hz
    rcases h with ⟨d, hd⟩ | ⟨d, hd⟩ | hd | hd | ⟨e2, es, he2, hn⟩ |
      ⟨e2, es, he2, hn⟩ | ⟨fs3, zs3, hf3, hz3, hl⟩ | hg
    · exact PyInput.noConfusion hd
    · exact PyInput.noConfusion hd
    · simp at hd
    · simp at hd
    · injection he2 with h3
      injection h3 with h1 h2
      rw [← h1] at hn
      rw [hnum] at hn
      exact Bool.noConfusion hn
    · injection he2 with h3
      injection h3 with h1 h2
      rw [← h1] at hn
      rw [hcplx] at hn
      exact Bool.noConfusion hn
    · injection hf3 with h1
      injection hz3 with h2
      rw [← h1, ← h2] at hl
      exact hl hlen
    · rw [hg] at hig
      exact Option.noConfusion hig

/-- C5 witness: fitting without an initial guess is rejected with the
same error for every engine. -/
theorem C5_witness :
    ∃ e, ∀ engine : FitEngine,
      BaseCircuit.fit engine
        { circuit := "R_0", initial_guess := none, name := none,
          algorithm := "leastsq", bounds := none, parameters_ := none,
          conf_ := none } freqsOk impedOk =
      .error (e,
        { circuit := "R_0", initial_guess := none, name := none,
          algorithm := "leastsq", bounds := none, parameters_ := none,
          conf_ := none }) :=
  C5_fit_validates_before_engine _ freqsOk impedOk
    (Or.inr (Or.inr (Or.inr (Or.inr (Or.inr (Or.inr (Or.inr rfl)))))))

/-- C8: a successful `fit` call returns the model instance itself - the
input model with only the fit-result fields updated; every other
attribute (circuit, name, initial guess, algorithm, bounds) is that of
the receiver, and the return value is a model, not a parameter
vector. -/
theorem C8_fit_returns_self :
    ∀ (engine : FitEngine) (m : BaseCircuit) (f z : PyInput)
      (m1 : BaseCircuit),
      BaseCircuit.fit engine m f z = .ok m1 →
      ∃ p c, m1 = { m with parameters_ := p, conf_ := c } := by
  intro engine m f z m1 h
  rcases fit_cases engine m f z with ⟨e, he⟩ | hvalid
  · rw [he engine] at h
    exact absurd h (by simp)
  · obtain ⟨fs, zs, f0, fs2, z0, zs2, ig, hf, hz, hfs, hzs, hnum,
      hcplx, hlen, hig, hres⟩ := hvalid
    rcases hres with ⟨e2, _, hfit⟩ | ⟨p, _, hfit⟩ | ⟨p, c, _, hfit⟩
    · rw [hfit] at h
      exact absurd h (by simp)
    · rw [hfit] at h
      cases h
      exact ⟨some p, m.conf_, rfl⟩
    · rw [hfit] at h
      cases h
      exact ⟨some p, some c, rfl⟩

/-- C8 witness: a concrete successful fit returns the input model with
only its fit fields updated. -/
theorem C8_witness :
    ∃ p c,
      ({ mC3 with parameters_ := some [5],
                  conf_ := some [1] } : BaseCircuit) =
        { mC3 with parameters_ := p, conf_ := c } :=
  C8_fit_returns_self
    ((fun _ _ _ _ _ _ => Except.ok ([5], some [1])) : FitEngine)
    mC3 freqsOk impedOk
    { mC3 with parameters_ := some [5], conf_ := some [1] } rfl

/-! ## Character-level lemmas for the grammar proof -/

/-- Token characters are untouched by every replace of
`get_param_names` and are not the split separator. -/
theorem tokenChars_clean :
    ∀ ch ∈ tokenChars, ch ≠ 'p' ∧ ch ≠ '(' ∧ ch ≠ ')' ∧ ch ≠ ',' ∧
      ch ≠ '/' ∧ ch ≠ '-' := by decide

/-- Digits are token characters. -/
theorem digit_mem_tokenChars : ∀ ch ∈ digitChars, ch ∈ tokenChars := by
  decide

/-- Digits are not element-kind letters. -/
theorem digit_not_letter : ∀ ch ∈ digitChars, ch ∉ elementLetters := by
  decide

/-- The cleanup pass distributes over concatenation. -/
theorem cleanChars_append (xs ys : List Char) :
    cleanChars (xs ++ ys) = cleanChars xs ++ cleanChars ys := by
  simp [cleanChars, removeChar, swapChar]

/-- A character no replace touches passes through the cleanup. -/
theorem cleanChars_keep (c : Char) (cs : List Char) (h1 : c ≠ 'p')
    (h2 : c ≠ '(') (h3 : c ≠ ')') (h4 : c ≠ ',') (h5 : c ≠ '/') :
    cleanChars (c :: cs) = c :: cleanChars cs := by
  simp [cleanChars, removeChar, swapChar, List.filter_cons, h1, h2, h3,
    h4, h5]

/-- The letter `p` is removed by the cleanup. -/
theorem cleanChars_p (cs : List Char) :
    cleanChars ('p' :: cs) = cleanChars cs := by
  simp [cleanChars, removeChar, swapChar, List.filter_cons]

/-- An opening parenthesis is removed by the cleanup. -/
theorem cleanChars_lparen (cs : List Char) :
    cleanChars ('(' :: cs) = cleanChars cs := by
  simp [cleanChars, removeChar, swapChar, List.filter_cons]

/-- A closing parenthesis is removed by the cleanup. -/
theorem cleanChars_rparen (cs : List Char) :
    cleanChars (')' :: cs) = cleanChars cs := by
  simp [cleanChars, removeChar, swapChar, List.filter_cons]

/-- A comma becomes the separator dash. -/
theorem cleanChars_comma (cs : List Char) :
    cleanChars (',' :: cs) = '-' :: cleanChars cs := by
  simp [cleanChars, removeChar, swapChar, List.filter_cons]

/-- A slash becomes the separator dash. -/
theorem cleanChars_slash (cs : List Char) :
    cleanChars ('/' :: cs) = '-' :: cleanChars cs := by
  simp [cleanChars, removeChar, swapChar, List.filter_cons]

/-- A dash passes through the cleanup. -/
theorem cleanChars_dash (cs : List Char) :
    cleanChars ('-' :: cs) = '-' :: cleanChars cs := by
  simp [cleanChars, removeChar, swapChar, List.filter_cons]

/-- A string of token characters is left unchanged by the cleanup. -/
theorem cleanChars_fixed :
    ∀ cs : List Char, (∀ ch ∈ cs, ch ∈ tokenChars) →
      cleanChars cs = cs := by
  intro cs h
  induction cs with
  | nil => rfl
  | cons c cs ih =>
    have hc := tokenChars_clean c (h c (by simp))
    rw [cleanChars_keep c cs hc.1 hc.2.1 hc.2.2.1 hc.2.2.2.1
      hc.2.2.2.2.1]
    rw [ih (fun ch hm => h ch (by simp [hm]))]

/-- Joining two nonempty token lists joins their joins with one
separator between. -/
theorem joinWith_append (sep : Char) :
    ∀ ts us : List (List Char), ts ≠ [] → us ≠ [] →
      joinWith sep (ts ++ us) =
        joinWith sep ts ++ sep :: joinWith sep us := by
  intro ts
  induction ts with
  | nil => intro us h _; exact absurd rfl h
  | cons t ts ih =>
    intro us _ hus
    cases ts with
    | nil =>
      cases us with
      | nil => exact absurd rfl hus
      | cons u us2 => simp [joinWith]
    | cons t2 ts2 =>
      have h2 := ih us (by simp) hus
      simp only [List.cons_append, List.append_eq, joinWith] at h2 ⊢
      rw [h2]
      simp

/-- Splitting a separator-free field gives exactly that field. -/
theorem splitChar_no_sep (sep : Char) :
    ∀ t : List Char, sep ∉ t → splitChar sep t = [t] := by
  intro t
  induction t with
  | nil => intro _; rfl
  | cons c cs ih =>
    intro h
    have hc : ¬(c = sep) := fun hh => h (by simp [hh])
    have hcs : sep ∉ cs := fun hm => h (by simp [hm])
    simp [splitChar, hc, ih hcs]

/-- Splitting after a leading separator-free field peels it off. -/
theorem splitChar_append (sep : Char) :
    ∀ t cs : List Char, sep ∉ t →
      splitChar sep (t ++ sep :: cs) = t :: splitChar sep cs := by
  intro t
  induction t with
  | nil => intro cs _; simp [splitChar]
  | cons c t2 ih =>
    intro cs h
    have hc : ¬(c = sep) := fun hh => h (by simp [hh])
    have ht2 : sep ∉ t2 := fun hm => h (by simp [hm])
    have h3 := ih cs ht2
    simp only [List.cons_append, List.append_eq, splitChar, hc,
      if_false] at h3 ⊢
    rw [h3]

/-- Splitting inverts joining for nonempty separator-free fields:
the round-trip of `get_param_names` over a rendered token list. -/
theorem splitChar_joinWith (sep : Char) :
    ∀ ts : List (List Char), ts ≠ [] → (∀ t ∈ ts, sep ∉ t) →
      splitChar sep (joinWith sep ts) = ts := by
  intro ts
  induction ts with
  | nil => intro h _; exact absurd rfl h
  | cons t ts ih =>
    intro _ hall
    cases ts with
    | nil =>
      simp only [joinWith]
      exact splitChar_no_sep sep t (hall t (by simp))
    | cons t2 ts2 =>
      have h1 : sep ∉ t := hall t (by simp)
      have h2 := ih (by simp) (fun u hu => hall u (by simp [hu]))
      simp only [joinWith]
      rw [splitChar_append sep t _ h1, h2]

/-- Shape of a name token: kind letter, underscore, digit index. -/
theorem token_shape_mem (L : Char) (i : String) (hL : L ∈ tokenChars)
    (hi : goodIndex i = true) :
    (L :: '_' :: i.toList) ≠ [] ∧
      ∀ ch ∈ L :: '_' :: i.toList, ch ∈ tokenChars := by
  have hdig : ∀ ch ∈ i.toList, ch ∈ digitChars := by
    simp only [goodIndex, Bool.and_eq_true, List.all_eq_true,
      decide_eq_true_eq] at hi
    exact hi.2
  refine ⟨by simp, ?_⟩
  intro ch hc
  rcases List.mem_cons.mp hc with h | hc
  · subst h; exact hL
  rcases List.mem_cons.mp hc with h | hc2
  · subst h; decide
  · exact digit_mem_tokenChars ch (hdig ch hc2)

/-- Tokens of a valid element are nonempty and made of token
characters. -/
theorem elemToken_mem (e : Elem) (h : e.valid = true) :
    ∀ tok ∈ e.tokens, tok ≠ [] ∧ ∀ ch ∈ tok, ch ∈ tokenChars := by
  cases e with
  | R i =>
    intro tok hm
    simp only [Elem.tokens, List.mem_singleton] at hm
    subst hm
    exact token_shape_mem 'R' i (by decide)
      (by simpa [Elem.valid] using h)
  | C i =>
    intro tok hm
    simp only [Elem.tokens, List.mem_singleton] at hm
    subst hm
    exact token_shape_mem 'C' i (by decide)
      (by simpa [Elem.valid] using h)
  | E i j =>
    intro tok hm
    simp only [Elem.valid, Bool.and_eq_true] at h
    simp only [Elem.tokens, List.mem_cons, List.mem_singleton,
      List.not_mem_nil, or_false] at hm
    rcases hm with hm | hm
    · subst hm; exact token_shape_mem 'E' i (by decide) h.1
    · subst hm; exact token_shape_mem 'E' j (by decide) h.2
  | W i j =>
    intro tok hm
    simp only [Elem.valid, Bool.and_eq_true] at h
    simp only [Elem.tokens, List.mem_cons, List.mem_singleton,
      List.not_mem_nil, or_false] at hm
    rcases hm with hm | hm
    · subst hm; exact token_shape_mem 'W' i (by decide) h.1
    · subst hm; exact token_shape_mem 'W' j (by decide) h.2

/-- The spelling of a valid element cleans to its dash-joined tokens. -/
theorem elemClean_chars (e : Elem) (h : e.valid = true) :
    cleanChars e.chars = joinWith '-' e.tokens := by
  cases e with
  | R i =>
    have h1 := elemToken_mem (Elem.R i) h ('R' :: '_' :: i.toList)
      (by simp [Elem.tokens])
    simp only [Elem.chars, Elem.tokens, joinWith]
    exact cleanChars_fixed _ h1.2
  | C i =>
    have h1 := elemToken_mem (Elem.C i) h ('C' :: '_' :: i.toList)
      (by simp [Elem.tokens])
    simp only [Elem.chars, Elem.tokens, joinWith]
    exact cleanChars_fixed _ h1.2
  | E i j =>
    have h1 := elemToken_mem (Elem.E i j) h ('E' :: '_' :: i.toList)
      (by simp [Elem.tokens])
    have h2 := elemToken_mem (Elem.E i j) h ('E' :: '_' :: j.toList)
      (by simp [Elem.tokens])
    simp only [Elem.chars, Elem.tokens, joinWith]
    rw [cleanChars_append, cleanChars_slash, cleanChars_fixed _ h1.2,
      cleanChars_fixed _ h2.2]
  | W i j =>
    have h1 := elemToken_mem (Elem.W i j) h ('W' :: '_' :: i.toList)
      (by simp [Elem.tokens])
    have h2 := elemToken_mem (Elem.W i j) h ('W' :: '_' :: j.toList)
      (by simp [Elem.tokens])
    simp only [Elem.chars, Elem.tokens, joinWith]
    rw [cleanChars_append, cleanChars_slash, cleanChars_fixed _ h1.2,
      cleanChars_fixed _ h2.2]

mutual
/-- A tree always has at least one name token. -/
theorem treeTokens_ne_nil : ∀ t : CircuitTree, t.tokens ≠ []
  | .elem e => by
      cases e <;> simp [CircuitTree.tokens, Elem.tokens]
  | .ser a b => by
      simp only [CircuitTree.tokens, ne_eq, List.append_eq_nil]
      rintro ⟨h1, _⟩
      exact treeTokens_ne_nil a h1
  | .par a bs => by
      simp only [CircuitTree.tokens, ne_eq, List.append_eq_nil]
      rintro ⟨h1, _⟩
      exact treeTokens_ne_nil a h1
/-- Branches always carry at least one name token. -/
theorem tailTokens_ne_nil :
    ∀ bs : BranchTail, BranchTail.tokens bs ≠ []
  | .one b => by
      simp only [BranchTail.tokens]
      exact treeTokens_ne_nil b
  | .cons b bs => by
      simp only [BranchTail.tokens, ne_eq, List.append_eq_nil]
      rintro ⟨h1, _⟩
      exact treeTokens_ne_nil b h1
end

mutual
/-- Every token of a valid tree is nonempty and made of token
characters. -/
theorem treeToken_mem : ∀ t : CircuitTree, t.valid = true →
    ∀ tok ∈ t.tokens, tok ≠ [] ∧ ∀ ch ∈ tok, ch ∈ tokenChars
  | .elem e => by
      intro h
      simp only [CircuitTree.tokens]
      exact elemToken_mem e (by simpa [CircuitTree.valid] using h)
  | .ser a b => by
      intro h tok hm
      simp only [CircuitTree.valid, Bool.and_eq_true] at h
      simp only [CircuitTree.tokens, List.mem_append] at hm
      rcases hm with hm | hm
      · exact treeToken_mem a h.1 tok hm
      · exact treeToken_mem b h.2 tok hm
  | .par a bs => by
      intro h tok hm
      simp only [CircuitTree.valid, Bool.and_eq_true] at h
      simp only [CircuitTree.tokens, List.mem_append] at hm
      rcases hm with hm | hm
      · exact treeToken_mem a h.1 tok hm
      · exact tailToken_mem bs h.2 tok hm
/-- Token wellformedness for the remaining branches. -/
theorem tailToken_mem :
    ∀ bs : BranchTail, BranchTail.valid bs = true →
      ∀ tok ∈ BranchTail.tokens bs,
        tok ≠ [] ∧ ∀ ch ∈ tok, ch ∈ tokenChars
  | .one b => by
      intro h
      simp only [BranchTail.tokens]
      exact treeToken_mem b (by simpa [BranchTail.valid] using h)
  | .cons b bs => by
      intro h tok hm
      simp only [BranchTail.valid, Bool.and_eq_true] at h
      simp only [BranchTail.tokens, List.mem_append] at hm
      rcases hm with hm | hm
      · exact treeToken_mem b h.1 tok hm
      · exact tailToken_mem bs h.2 tok hm
end

mutual
/-- The cleanup pass of `get_param_names` turns the spelling of a valid
tree into its `-`-joined name tokens. -/
theorem treeClean_chars : ∀ t : CircuitTree, t.valid = true →
    cleanChars t.chars = joinWith '-' t.tokens
  | .elem e => by
      intro h
      simp only [CircuitTree.chars, CircuitTree.tokens]
      exact elemClean_chars e (by simpa [CircuitTree.valid] using h)
  | .ser a b => by
      intro h
      simp only [CircuitTree.valid, Bool.and_eq_true] at h
      simp only [CircuitTree.chars, CircuitTree.tokens]
      rw [cleanChars_append, cleanChars_dash,
        treeClean_chars a h.1, treeClean_chars b h.2,
        joinWith_append '-' _ _ (treeTokens_ne_nil a)
          (treeTokens_ne_nil b)]
  | .par a bs => by
      intro h
      simp only [CircuitTree.valid, Bool.and_eq_true] at h
      simp only [CircuitTree.chars, CircuitTree.tokens]
      rw [cleanChars_p, cleanChars_lparen, cleanChars_append,
        cleanChars_append, cleanChars_comma,
        treeClean_chars a h.1, tailClean_chars bs h.2]
      rw [show cleanChars [')'] = ([] : List Char) from rfl,
        List.append_nil,
        joinWith_append '-' _ _ (treeTokens_ne_nil a)
          (tailTokens_ne_nil bs)]
/-- Cleanup for the remaining branches of a parallel group. -/
theorem tailClean_chars :
    ∀ bs : BranchTail, BranchTail.valid bs = true →
      cleanChars (BranchTail.chars bs) =
        joinWith '-' (BranchTail.tokens bs)
  | .one b => by
      intro h
      simp only [BranchTail.chars, BranchTail.tokens]
      exact treeClean_chars b (by simpa [BranchTail.valid] using h)
  | .cons b bs => by
      intro h
      simp only [BranchTail.valid, Bool.and_eq_true] at h
      simp only [BranchTail.chars, BranchTail.tokens]
      rw [cleanChars_append, cleanChars_comma,
        treeClean_chars b h.1, tailClean_chars bs h.2,
        joinWith_append '-' _ _ (treeTokens_ne_nil b)
          (tailTokens_ne_nil bs)]
end

/-- Digit strings contribute no element-kind letters. -/
theorem filter_letters_digits (cs : List Char)
    (h : ∀ ch ∈ cs, ch ∈ digitChars) :
    cs.filter (fun ch => ch ∈ elementLetters) = [] := by
  rw [List.filter_eq_nil_iff]
  intro ch hm
  simpa using digit_not_letter ch (h ch hm)

/-- A name token contributes exactly one element-kind letter. -/
theorem letters_token (L : Char) (i : String) (hL : L ∈ elementLetters)
    (hi : goodIndex i = true) :
    ((L :: '_' :: i.toList).filter
      (fun ch => ch ∈ elementLetters)).length = 1 := by
  have hdig : ∀ ch ∈ i.toList, ch ∈ digitChars := by
    simp only [goodIndex, Bool.and_eq_true, List.all_eq_true,
      decide_eq_true_eq] at hi
    exact hi.2
  have hu : ('_' : Char) ∉ elementLetters := by decide
  simp only [List.filter_cons]
  rw [filter_letters_digits i.toList hdig]
  simp [hL, hu]

/-- A valid element contributes exactly its arity in kind letters. -/
theorem elemLetters_count (e : Elem) (h : e.valid = true) :
    (e.chars.filter (fun ch => ch ∈ elementLetters)).length =
      e.arity := by
  have hs : ('/' : Char) ∉ elementLetters := by decide
  cases e with
  | R i =>
    simp only [Elem.valid] at h
    simp only [Elem.chars, Elem.tokens, joinWith, Elem.arity]
    exact letters_token 'R' i (by decide) h
  | C i =>
    simp only [Elem.valid] at h
    simp only [Elem.chars, Elem.tokens, joinWith, Elem.arity]
    exact letters_token 'C' i (by decide) h
  | E i j =>
    simp only [Elem.valid, Bool.and_eq_true] at h
    simp only [Elem.chars, Elem.tokens, joinWith, Elem.arity]
    rw [List.filter_append, List.length_append]
    have h2 : (('/' :: 'E' :: '_' :: j.toList).filter
        (fun ch => ch ∈ elementLetters)).length = 1 := by
      have h3 : ('/' :: 'E' :: '_' :: j.toList).filter
          (fun ch => ch ∈ elementLetters) =
          ('E' :: '_' :: j.toList).filter
            (fun ch => ch ∈ elementLetters) := by
        simp [List.filter_cons, hs]
      rw [h3]
      exact letters_token 'E' j (by decide) h.2
    rw [letters_token 'E' i (by decide) h.1, h2]
  | W i j =>
    simp only [Elem.valid, Bool.and_eq_true] at h
    simp only [Elem.chars, Elem.tokens, joinWith, Elem.arity]
    rw [List.filter_append, List.length_append]
    have h2 : (('/' :: 'W' :: '_' :: j.toList).filter
        (fun ch => ch ∈ elementLetters)).length = 1 := by
      have h3 : ('/' :: 'W' :: '_' :: j.toList).filter
          (fun ch => ch ∈ elementLetters) =
          ('W' :: '_' :: j.toList).filter
            (fun ch => ch ∈ elementLetters) := by
        simp [List.filter_cons, hs]
      rw [h3]
      exact letters_token 'W' j (by decide) h.2
    rw [letters_token 'W' i (by decide) h.1, h2]

mutual
/-- The element-kind letters in the spelling of a valid tree count its
total parameter arity. -/
theorem treeLetters_count : ∀ t : CircuitTree, t.valid = true →
    (t.chars.filter (fun ch => ch ∈ elementLetters)).length =
      t.paramCount
  | .elem e => by
      intro h
      simp only [CircuitTree.chars, CircuitTree.paramCount]
      exact elemLetters_count e (by simpa [CircuitTree.valid] using h)
  | .ser a b => by
      intro h
      simp only [CircuitTree.valid, Bool.and_eq_true] at h
      have hd : ('-' : Char) ∉ elementLetters := by decide
      simp only [CircuitTree.chars, CircuitTree.paramCount,
        List.filter_append, List.length_append, List.filter_cons]
      simp [hd, treeLetters_count a h.1,
        treeLetters_count b h.2]
  | .par a bs => by
      intro h
      simp only [CircuitTree.valid, Bool.and_eq_true] at h
      have hp : ('p' : Char) ∉ elementLetters := by decide
      have hl : ('(' : Char) ∉ elementLetters := by decide
      have hr : (')' : Char) ∉ elementLetters := by decide
      have hcm : (',' : Char) ∉ elementLetters := by decide
      simp only [CircuitTree.chars, CircuitTree.paramCount,
        List.filter_append, List.length_append, List.filter_cons]
      simp [hp, hl, hr, hcm, treeLetters_count a h.1,
        tailLetters_count bs h.2]
/-- Letter count for the remaining branches of a parallel group. -/
theorem tailLetters_count :
    ∀ bs : BranchTail, BranchTail.valid bs = true →
      ((BranchTail.chars bs).filter
        (fun ch => ch ∈ elementLetters)).length =
        BranchTail.paramCount bs
  | .one b => by
      intro h
      simp only [BranchTail.chars, BranchTail.paramCount]
      exact treeLetters_count b
        (by simpa [BranchTail.valid] using h)
  | .cons b bs => by
      intro h
      simp only [BranchTail.valid, Bool.and_eq_true] at h
      have hcm : (',' : Char) ∉ elementLetters := by decide
      simp only [BranchTail.chars, BranchTail.paramCount,
        List.filter_append, List.length_append, List.filter_cons]
      simp [hcm, treeLetters_count b h.1,
        tailLetters_count bs h.2]
end

mutual
/-- One name token per scalar sub-parameter: the token count of a tree
is its total parameter arity. -/
theorem treeTokens_length : ∀ t : CircuitTree,
    t.tokens.length = t.paramCount
  | .elem e => by
      cases e <;>
        simp [CircuitTree.tokens, CircuitTree.paramCount, Elem.tokens,
          Elem.arity]
  | .ser a b => by
      simp [CircuitTree.tokens, CircuitTree.paramCount,
        treeTokens_length a, treeTokens_length b]
  | .par a bs => by
      simp [CircuitTree.tokens, CircuitTree.paramCount,
        treeTokens_length a, tailTokens_length bs]
/-- Token count for the remaining branches of a parallel group. -/
theorem tailTokens_length : ∀ bs : BranchTail,
    (BranchTail.tokens bs).length = BranchTail.paramCount bs
  | .one b => by
      simp [BranchTail.tokens, BranchTail.paramCount,
        treeTokens_length b]
  | .cons b bs => by
      simp [BranchTail.tokens, BranchTail.paramCount,
        treeTokens_length b, tailTokens_length bs]
end

/-- C7: for every valid circuit expression - the rendering of a
structural tree of the grammar - `get_param_names` returns exactly the
element name tokens in left-to-right traversal order, one per scalar
sub-parameter, and its length equals `calculateCircuitLength` of the
same expression; in particular the Randles expression yields the
claimed token list. -/
theorem C7_get_param_names_order_and_length :
    (∀ t : CircuitTree, t.valid = true →
      get_param_names (renderString t) =
        (CircuitTree.tokens t).map List.asString ∧
      (get_param_names (renderString t)).length =
        calculateCircuitLength (renderString t)) ∧
    get_param_names "R_0-p(R_1,C_1)-W_1/W_2" =
      ["R_0", "R_1", "C_1", "W_1", "W_2"] := by
  constructor
  · intro t hv
    have hclean := treeClean_chars t hv
    have hkey : get_param_names (renderString t) =
        (splitChar '-' (cleanChars t.chars)).map List.asString := rfl
    have hnodash : ∀ tok ∈ t.tokens, ('-' : Char) ∉ tok := by
      intro tok hm hd
      have h2 := (treeToken_mem t hv tok hm).2 '-' hd
      exact absurd h2 (by decide)
    have hsplit := splitChar_joinWith '-' t.tokens
      (treeTokens_ne_nil t) hnodash
    constructor
    · rw [hkey, hclean, hsplit]
    · rw [hkey, hclean, hsplit, List.length_map,
        treeTokens_length t]
      have hc : calculateCircuitLength (renderString t) =
          (t.chars.filter (fun ch => ch ∈ elementLetters)).length := rfl
      rw [hc, treeLetters_count t hv]
  · rfl

/-- C7 witness: the theorem applied to the concrete Randles tree. -/
theorem C7_witness :
    CircuitTree.valid tC7 = true ∧
    get_param_names (renderString tC7) =
      (CircuitTree.tokens tC7).map List.asString ∧
    (get_param_names (renderString tC7)).length =
      calculateCircuitLength (renderString tC7) :=
  ⟨by decide,
   (C7_get_param_names_order_and_length.1 tC7 (by decide)).1,
   (C7_get_param_names_order_and_length.1 tC7 (by decide)).2⟩
